import Mathlib

/-!
# Verification of the night_worker orchestrator

A shallow embedding of the night_worker repository (`ralph_loop.py` and
`worker/worker.py`) together with proofs about its behaviour.

Conventions of the embedding:
* file contents and log texts are Lean `String`s; missing files are `Option`;
* the regex families of `worker.py` are compiled by hand into decidable
  substring matchers over `List Char` (the patterns are alternations of
  literals plus one `.?` wildcard);
* filesystem marker state is a record of `Bool`s, and the marker-touching
  steps of `start_job` are embedded as explicit state traces in program
  order;
* wall-clock quantities (the soft time budget, file mtimes) are oracle
  inputs: a `Bool` per loop entry for the budget guard, a rational number
  for an mtime.
-/

namespace NightWorker

/-! ## ASCII lowercasing and substring search

`worker.py` compiles its regexes with `re.IGNORECASE`; all pattern
alternatives are ASCII literals, so case-insensitive search is search of
the lowercase pattern inside the ASCII-lowercased text.  Python's `in`
operator on `str` (used for the completion signal) is plain substring
containment, case-sensitive. -/

/-- Lowercase one ASCII character; other characters are kept. -/
def asciiLower (c : Char) : Char :=
  if 'A' ≤ c ∧ c ≤ 'Z' then Char.ofNat (c.toNat + 32) else c

/-- ASCII-lowercase a character list. -/
def lowerList (l : List Char) : List Char := l.map asciiLower

/-- Does `pat` occur as a contiguous sublist of `text`? (Python `pat in text`.) -/
def containsSub (pat : List Char) : List Char → Bool
  | [] => pat.isEmpty
  | c :: rest => pat.isPrefixOf (c :: rest) || containsSub pat rest

/-- Python `sig in text` on strings. -/
def strContains (text sig : String) : Bool :=
  containsSub sig.toList text.toList

/-- Does some suffix of `text` satisfy `p`? (An anchored-at-any-position match.) -/
def anySuffix (p : List Char → Bool) : List Char → Bool
  | [] => p []
  | c :: rest => p (c :: rest) || anySuffix p rest

/-- Does `text` start with one of the literal alternatives? -/
def litAltsAt (alts : List (List Char)) (text : List Char) : Bool :=
  alts.any (fun a => a.isPrefixOf text)

/-! ## The three regex families of `worker.py` (lines 13–21)

`RATE_LIMIT_RE = rate.?limit|429|too many requests|retry after|quota exceeded`
`TRANSIENT_RE  = status code 502|status code 503|status code 504|bad gateway|gateway timeout|service unavailable|temporarily unavailable|upstream`
`CONTEXT_RE    = context length|maximum context|prompt too long|input too long|too many tokens|token limit|context window`

The only non-literal piece is `rate.?limit`: "rate", then at most one
character that is not a newline (Python `.` does not match `\n`), then
"limit". -/

/-- Anchored match of `rate.?limit` at the head of `text`. -/
def rateDotAt (text : List Char) : Bool :=
  ("rate".toList).isPrefixOf text &&
    (("limit".toList).isPrefixOf (text.drop 4) ||
      (match text.drop 4 with
       | c :: rest => decide (c ≠ '\n') && ("limit".toList).isPrefixOf rest
       | [] => false))

/-- `detect(RATE_LIMIT_RE, log)`: case-insensitive search of the rate-limit family. -/
def detectRateLimit (log : String) : Bool :=
  anySuffix
    (fun t => rateDotAt t ||
      litAltsAt ["429".toList, "too many requests".toList,
                 "retry after".toList, "quota exceeded".toList] t)
    (lowerList log.toList)

/-- `detect(CONTEXT_RE, log)`: case-insensitive search of the context-limit family. -/
def detectContext (log : String) : Bool :=
  anySuffix
    (litAltsAt ["context length".toList, "maximum context".toList,
                "prompt too long".toList, "input too long".toList,
                "too many tokens".toList, "token limit".toList,
                "context window".toList])
    (lowerList log.toList)

/-- `detect(TRANSIENT_RE, log)`: case-insensitive search of the transient family. -/
def detectTransient (log : String) : Bool :=
  anySuffix
    (litAltsAt ["status code 502".toList, "status code 503".toList,
                "status code 504".toList, "bad gateway".toList,
                "gateway timeout".toList, "service unavailable".toList,
                "temporarily unavailable".toList, "upstream".toList])
    (lowerList log.toList)

/-! ## Supervisor outcome classification (`ralph_loop.py`, `start_job`, lines 609–621)

```
worker_status = None
if worker_status_file.is_file():
    worker_status = worker_status_file.read_text().strip().lower()
running_marker.unlink(missing_ok=True)
success = rc == 0 and worker_status not in {"failed"}
```
The status-file content is modelled as `Option String` (`none` = file absent
or unreadable). -/

/-- ASCII-lowercase a string. -/
def lowerStr (s : String) : String := String.mk (lowerList s.toList)

/-- The worker status as `start_job` computes it: strip and lowercase the
status-file content when the file is present. -/
def read_worker_status (statusFile : Option String) : Option String :=
  statusFile.map (fun s => lowerStr s.trim)

/-- `success = rc == 0 and worker_status not in {"failed"}`. -/
def start_job_success (rc : Int) (statusFile : Option String) : Bool :=
  rc == 0 && !(read_worker_status statusFile == some "failed")

/-! ## Claim protocol (`ralph_loop.py`, `claim_job`, lines 222–237)

The filesystem condition at claim time is abstracted to three booleans:
whether `queue/<id>.claimed` already exists (`os.symlink` raises
`FileExistsError` exactly then), whether `running/<id>` exists, and whether
the stale-recovery unlink-and-retry raises `OSError`. -/

/-- The filesystem state `claim_job` reacts to. -/
structure ClaimEnv where
  /-- `queue/<id>.claimed` already exists, so the first symlink raises. -/
  claimExists : Bool
  /-- `running/<id>` exists (a live claim). -/
  runningExists : Bool
  /-- the stale-recovery unlink/symlink retry raises `OSError`. -/
  retryRaises : Bool
deriving DecidableEq, Repr

/-- `claim_job`: returns the claimed job id, or `none` when not claimed. -/
def claim_job (env : ClaimEnv) (jobId : String) : Option String :=
  if env.claimExists then
    if env.runningExists then none
    else if env.retryRaises then none
    else some jobId
  else some jobId

/-! ## Iteration classification (`worker/worker.py`)

Both modes classify an iteration from its return code and log text.  The
classic-mode loop (lines 458–525) mutates `status`/`stop_reason` and either
breaks or continues; we embed the body of its `while` loop as a step
function returning an explicit action.  The zip-chain loop (lines 270–417)
computes `iter_status`, `iter_stop_reason`, `hard_stop` and the new
transient-error counter; we embed that computation as `classify_zip_iter`,
including the iteration-cap override of lines 376–381. -/

/-- What one classic-mode iteration does after the assistant returns. -/
inductive ClassicAction where
  /-- `break` out of the loop with this final status and stop reason. -/
  | stop (status reason : String)
  /-- continue to the next iteration with this transient-error counter. -/
  | next (cte : Nat)
deriving DecidableEq, Repr

/-- Classic-mode classification of one iteration (`worker.py` lines 479–525).
`cte` is the consecutive-transient-error counter before this iteration. -/
def classic_step (rc : Int) (log : String) (cte maxTransient : Nat)
    (completeSignal : String) : ClassicAction :=
  if rc ≠ 0 then
    if detectRateLimit log then .stop "stopped_rate_limit" "rate_limit_detected"
    else if detectContext log then .stop "stopped_context_limit" "context_limit_detected"
    else if detectTransient log then
      if cte + 1 ≥ maxTransient then .stop "failed" "too_many_transient_errors"
      else .next (cte + 1)
    else if rc = 124 then .next cte
    else .stop "failed" ("assistant_exit_" ++ toString rc)
  else if strContains log completeSignal then .stop "done" "complete_signal"
  else .next 0

/-- Result of classifying one zip-chain iteration. -/
structure ZipIterResult where
  /-- `iter_status`, also written to the `_vN.status` sidecar. -/
  status : String
  /-- `iter_stop_reason`. -/
  reason : String
  /-- `hard_stop`: the loop breaks after emitting the checkpoint. -/
  hardStop : Bool
  /-- the consecutive-transient-error counter after this iteration. -/
  cte : Nat
deriving DecidableEq, Repr

/-- Zip-chain classification of one iteration (`worker.py` lines 326–381),
including the iteration-cap override applied when no hard stop occurred and
`iteration == max_iterations`. -/
def classify_zip_iter (rc : Int) (log : String) (cte maxTransient : Nat)
    (completeSignal : String) (iteration maxIterations : Nat) : ZipIterResult :=
  let base : ZipIterResult :=
    if rc ≠ 0 ∧ detectRateLimit log then
      ⟨"stopped_rate_limit", "rate_limit_detected", true, cte⟩
    else if rc ≠ 0 ∧ detectContext log then
      ⟨"stopped_context_limit", "context_limit_detected", true, cte⟩
    else if rc ≠ 0 ∧ detectTransient log then
      if cte + 1 ≥ maxTransient then
        ⟨"failed", "too_many_transient_errors", true, cte + 1⟩
      else
        ⟨"in_progress", "", false, cte + 1⟩
    else if rc ≠ 0 ∧ rc ≠ 124 then
      ⟨"failed", "assistant_exit_" ++ toString rc, true, cte⟩
    else if strContains log completeSignal then
      ⟨"done", "complete_signal", true, cte⟩
    else
      ⟨"in_progress", "", false, 0⟩
  if ¬ base.hardStop ∧ iteration = maxIterations then
    ⟨"stopped_iteration_cap", "max_iterations_reached", true, base.cte⟩
  else base

/-! ## The zip-chain loop (`worker/worker.py`, lines 261–422)

Per iteration the loop checks the soft time budget, runs the assistant,
classifies, always emits a checkpoint archive `"<id>_v" ++ (offset+iteration)`
plus its sidecar, and only then breaks on a hard stop.  Wall time and the
assistant are oracles: `env i` gives, for loop entry at `iteration = i`,
whether the budget guard fires, and otherwise the assistant's return code
and log text. -/

/-- Oracle for one zip-chain loop entry. -/
structure IterOracle where
  /-- `max_seconds - elapsed <= soft_stop_margin_seconds` held at loop entry. -/
  softStop : Bool
  /-- assistant return code (`124` = iteration timeout). -/
  rc : Int
  /-- contents of `logs/iter-<N>.log`. -/
  log : String

/-- One run of the zip-chain `while` loop starting at `iteration`, with
transient counter `cte`; returns the list of attempted iteration numbers and
the list of emitted checkpoint version numbers (the `N` of `<id>_vN.zip`),
in emission order.  `fuel` bounds the recursion; `maxIterations + 1`
suffices from `iteration = 1`. -/
def zipChainGo (env : Nat → IterOracle) (maxTransient : Nat) (sig : String)
    (maxIterations offset : Nat) : Nat → Nat → Nat → List Nat × List Nat
  | 0, _, _ => ([], [])
  | fuel + 1, iteration, cte =>
    if iteration > maxIterations then ([], [])
    else if (env iteration).softStop then ([], [])
    else
      let c := classify_zip_iter (env iteration).rc (env iteration).log cte
        maxTransient sig iteration maxIterations
      let rest :=
        if c.hardStop then (([], []) : List Nat × List Nat)
        else zipChainGo env maxTransient sig maxIterations offset fuel
          (iteration + 1) c.cte
      (iteration :: rest.1, (offset + iteration) :: rest.2)

/-- The zip-chain run as `main` performs it: `iteration = 1`, counter `0`. -/
def zipChainRun (env : Nat → IterOracle) (maxTransient : Nat) (sig : String)
    (maxIterations offset : Nat) : List Nat × List Nat :=
  zipChainGo env maxTransient sig maxIterations offset (maxIterations + 1) 1 0

/-! ## Resume search (`ralph_loop.py`, `find_latest_version_zip`, lines 244–264)

The function globs `<job_id>_v*.zip` in the sink, parses the middle part
with Python `int(...)`, and keeps a candidate only when its number strictly
exceeds the running best, which starts at `0`.  Directory iteration order
is unspecified, so the glob result is modelled as a list of file names in
arbitrary order. -/

/-- Python `int(str)` whitespace: characters stripped before parsing. -/
def isPyWs (c : Char) : Bool :=
  c = ' ' || c = '\t' || c = '\n' || c = '\r' || c = '\x0c' || c = '\x0b'

/-- Digits possibly separated by single underscores (Python numeric literal
rule used by `int()`): the first character was already consumed as a digit,
`acc` is its value. -/
def pyDigitsGo : List Char → Nat → Option Nat
  | [], acc => some acc
  | '_' :: c :: rest, acc =>
    if c.isDigit then pyDigitsGo rest (acc * 10 + (c.toNat - 48)) else none
  | ['_'], _ => none
  | c :: rest, acc =>
    if c.isDigit then pyDigitsGo rest (acc * 10 + (c.toNat - 48)) else none

/-- Unsigned part of Python `int()`: at least one digit, underscores only
between digits. -/
def pyNat : List Char → Option Nat
  | [] => none
  | c :: rest => if c.isDigit then pyDigitsGo rest (c.toNat - 48) else none

/-- Python `int(s)` for ASCII decimal strings: optional surrounding
whitespace, optional sign, digits with underscores; `none` when `int()`
raises `ValueError`. -/
def pyInt (s : String) : Option Int :=
  let l := (s.toList.dropWhile isPyWs).reverse.dropWhile isPyWs |>.reverse
  match l with
  | '+' :: rest => (pyNat rest).map Int.ofNat
  | '-' :: rest => (pyNat rest).map (fun n => -(n : Int))
  | rest => (pyNat rest).map Int.ofNat

/-- Does `name` match the glob `<jobId>_v*.zip`?  (`*` may be empty; the
leading `<jobId>_v` and trailing `.zip` may not overlap.) -/
def matchesVersionGlob (jobId name : String) : Bool :=
  let pre := (jobId ++ "_v").toList
  let nl := name.toList
  pre.isPrefixOf nl && (".zip".toList).isSuffixOf nl && decide (pre.length + 4 ≤ nl.length)

/-- `name[len(prefix):-len(".zip")]` parsed with `int()`, for names matching
the glob; `none` when the name does not match or `int()` raises. -/
def versionOfName (jobId name : String) : Option Int :=
  if matchesVersionGlob jobId name then
    let pre := (jobId ++ "_v").toList
    let nl := name.toList
    pyInt (String.mk ((nl.drop pre.length).take (nl.length - pre.length - 4)))
  else none

/-- One fold step of `find_latest_version_zip`: keep the candidate only when
its parsed number strictly exceeds the running best. -/
def flvzStep (jobId : String) (best : Option String × Int) (name : String) :
    Option String × Int :=
  match versionOfName jobId name with
  | none => best
  | some n => if n > best.2 then (some name, n) else best

/-- `find_latest_version_zip(output_dir, job_id)` over the glob results
`names`: returns `(best_path, best_n)` with `best_n` initialised to `0`. -/
def find_latest_version_zip (names : List String) (jobId : String) :
    Option String × Int :=
  names.foldl (flvzStep jobId) (none, 0)

/-! ## Iteration-log sync (`ralph_loop.py`, `sync_iter_logs`, lines 297–350)

Per tick, for each `iter-*.log` file in sorted order: look up the cursor
(default `0`), skip the file when `size <= offset`, otherwise write a
header when `offset == 0`, append the bytes from `offset` to `size`, and
set the cursor to `size`.  A file snapshot is a `(name, size)` pair; the
appended byte count is what the claim constrains, so the tick output is the
per-file appended counts in processing order. -/

/-- Per-file step: `(new cursor, bytes appended from this file, header written)`. -/
def syncFileStep (cur size : Nat) : Nat × Nat × Bool :=
  if size ≤ cur then (cur, 0, false)
  else (size, size - cur, cur = 0)

/-- One sync tick over the sorted file list: the updated cursor map and the
per-file appended byte counts. -/
def syncTick (cursors : String → Nat) :
    List (String × Nat) → (String → Nat) × List (String × Nat)
  | [] => (cursors, [])
  | (f, size) :: rest =>
    let st := syncFileStep (cursors f) size
    let cursors' : String → Nat := fun n => if n = f then st.1 else cursors n
    let r := syncTick cursors' rest
    (r.1, (f, st.2.1) :: r.2)

/-- Several successive sync ticks (only the cursor map flows between ticks;
`synced_offsets` is the supervisor-owned dict). -/
def syncTicks (cursors : String → Nat) : List (List (String × Nat)) → String → Nat
  | [] => cursors
  | t :: rest => syncTicks (syncTick cursors t).1 rest

/-! ## Persistent trigger (`ralph_loop.py`, lines 152–182)

`should_fire_persistent_trigger` reads the stored last-handled mtime
(`read_float`, `0.0` on missing or unparsable file) and fires iff the
trigger file exists and its mtime is strictly greater.
`mark_persistent_trigger_handled` stores the current mtime, and is a no-op
when the trigger file is missing.  Mtimes are modelled as rationals; the
stored state file is `Option ℚ` (`none` = missing or unparsable). -/

/-- `read_float`: stored value, defaulting to `0.0`. -/
def read_float (stored : Option ℚ) : ℚ := stored.getD 0

/-- `should_fire_persistent_trigger`: `tMtime` is the trigger file's mtime
(`none` = the file does not exist or `stat` fails). -/
def should_fire_persistent_trigger (tMtime : Option ℚ) (stored : Option ℚ) : Bool :=
  match tMtime with
  | none => false
  | some current => decide (read_float stored < current)

/-- `mark_persistent_trigger_handled`: store the current mtime, no-op when
the trigger file is missing. -/
def mark_persistent_trigger_handled (tMtime : Option ℚ) (stored : Option ℚ) :
    Option ℚ :=
  match tMtime with
  | none => stored
  | some current => some current

/-! ## State-marker traces of `start_job` (`ralph_loop.py`, lines 474–685)

The marker operations of one `start_job` call, in program order:
`running_marker.touch()` (line 491) — then, if the input copy fails,
`running_marker.unlink()` and `failed_marker.touch()` when
`keep_failed_marker` (lines 501–503) — otherwise after the container exits,
`running_marker.unlink()` (line 619), then `done_marker.touch()` on success
(line 624) or `failed_marker.touch()` / `failed_marker.unlink()` depending
on `keep_failed_marker` (lines 639–642). -/

/-- Presence of the three per-job markers. -/
structure Markers where
  /-- `running/<id>` exists. -/
  running : Bool
  /-- `done/<id>` exists. -/
  done : Bool
  /-- `failed/<id>` exists. -/
  failed : Bool
deriving DecidableEq, Repr

/-- The three ways one `start_job` call can end. -/
inductive JobOutcome where
  /-- the input-zip copy raised `OSError` (lines 498–504). -/
  | copyFail
  /-- container ran, `rc == 0` and worker status not `"failed"`. -/
  | success
  /-- container ran, classification failed the job. -/
  | failure
deriving DecidableEq, Repr

/-- The marker states visited during one `start_job` call starting from
`s`, one entry per marker operation, in program order. -/
def jobMarkerStates (s : Markers) (kf : Bool) (o : JobOutcome) : List Markers :=
  let s1 := { s with running := true }
  let s2 := { s1 with running := false }
  match o with
  | .copyFail =>
    if kf then [s1, s2, { s2 with failed := true }] else [s1, s2]
  | .success => [s1, s2, { s2 with done := true }]
  | .failure =>
    if kf then [s1, s2, { s2 with failed := true }]
    else [s1, s2, { s2 with failed := false }]

/-- The marker state after one `start_job` call returns. -/
def jobMarkersEnd (s : Markers) (kf : Bool) (o : JobOutcome) : Markers :=
  match o with
  | .copyFail => { s with running := false, failed := kf || s.failed }
  | .success => { s with running := false, done := true }
  | .failure => { s with running := false, failed := kf }

/-- Is the job id present in at most one of `{running, done, failed}`? -/
def atMostOneMarker (s : Markers) : Bool :=
  (if s.running then 1 else 0) + (if s.done then 1 else 0)
    + (if s.failed then 1 else 0) ≤ 1

/-- Marker states between jobs that the strict single-zip branch of `main`
(lines 800–856) can reach for one job id: the branch dispatches `start_job`
without consulting or clearing `done/<id>` and `failed/<id>`. -/
inductive RestStrict : Markers → Prop
  /-- all state directories start empty. -/
  | init : RestStrict ⟨false, false, false⟩
  /-- a further `start_job` call on the same id (the single zip stays in the
  drop folder, so every tick re-dispatches it). -/
  | step (s : Markers) (kf : Bool) (o : JobOutcome) :
      RestStrict s → RestStrict (jobMarkersEnd s kf o)

/-- Marker states the strict branch can exhibit at some instant: a between-
jobs state, or any intermediate state of a `start_job` call launched from
one. -/
def InstantStrict (t : Markers) : Prop :=
  RestStrict t ∨ ∃ s kf o, RestStrict s ∧ t ∈ jobMarkerStates s kf o

/-- The pre-dispatch cleanup of the non-strict branch (lines 873–875):
unlink `failed/<id>` when present and `keep_failed_marker` is off. -/
def preClean (s : Markers) (kf : Bool) : Markers :=
  if s.failed && !kf then { s with failed := false } else s

/-- Marker states between jobs that the non-strict branch of `main`
(lines 868–911) can reach for one job id: after cleanup, a job with a
`done/<id>` or `failed/<id>` marker is skipped (line 876), so `start_job`
only runs from a terminal-marker-free state. -/
inductive RestLoop : Markers → Prop
  /-- all state directories start empty. -/
  | init : RestLoop ⟨false, false, false⟩
  /-- the pre-dispatch cleanup of a poll tick. -/
  | clean (s : Markers) (kf : Bool) : RestLoop s → RestLoop (preClean s kf)
  /-- a dispatched `start_job` call: only from a state with no terminal
  marker. -/
  | step (s : Markers) (kf : Bool) (o : JobOutcome) :
      RestLoop s → s.done = false → s.failed = false →
      RestLoop (jobMarkersEnd s kf o)

/-- Marker states the non-strict branch can exhibit at some instant. -/
def InstantLoop (t : Markers) : Prop :=
  RestLoop t ∨ ∃ s kf o, RestLoop s ∧ s.done = false ∧ s.failed = false
    ∧ t ∈ jobMarkerStates s kf o

/-! ## Input staging order (`ralph_loop.py`, `start_job`, lines 489–504)

`start_job` touches `running/<id>` (line 491) and then copies the input
archive with `shutil.copy2` (line 496) — a plain copy with no `.tmp`
sibling (`atomic_copy`, lines 284–289, is used for sink artifacts, not for
input staging).  The trace below records, per step of `start_job` that
changes them, whether `running/<id>` exists and whether
`work_dir/<id>/input/input.zip` has been fully staged. -/

/-- How a file copy is performed. -/
inductive CopyMethod where
  /-- `shutil.copy2(src, dst)` directly to the destination. -/
  | plainCopy
  /-- copy to a `.tmp` sibling, then rename (`atomic_copy`). -/
  | tmpThenRename
deriving DecidableEq, Repr

/-- The copy discipline `start_job` uses to stage the input zip (line 496). -/
def stage_input_method : CopyMethod := .plainCopy

/-- The copy discipline of the `atomic_copy` helper (lines 284–289). -/
def sink_copy_method : CopyMethod := .tmpThenRename

/-- Running-marker and staging state. -/
structure StageState where
  /-- `running/<id>` exists. -/
  running : Bool
  /-- `input/input.zip` is fully staged. -/
  staged : Bool
deriving DecidableEq, Repr

/-- The `(running, staged)` states of one `start_job` call from a fresh work
dir, one entry per step that changes them, in program order. -/
def stageTrace (kf : Bool) (o : JobOutcome) : List StageState :=
  match o, kf with
  | .copyFail, _ => [⟨true, false⟩, ⟨false, false⟩]
  | _, _ => [⟨true, false⟩, ⟨true, true⟩, ⟨false, true⟩]

/-- Invariant of the `find_latest_version_zip` fold accumulator: the best
number is nonnegative, `0` exactly when no path was chosen, and a chosen
path comes from `names`, parses to the best number, which is then at least
`1`. -/
def FlvzInv (names : List String) (jobId : String) (b : Option String × Int) : Prop :=
  0 ≤ b.2 ∧ (b.1 = none → b.2 = 0)
    ∧ ∀ p, b.1 = some p →
        p ∈ names ∧ versionOfName jobId p = some b.2 ∧ 1 ≤ b.2

/-! # Theorems -/

/-- Claim C1 — a supervisor run is classified as success if and only if the
container's return code is `0` and the worker status read from
`<work>/output/<id>.status` (stripped and lowercased, when the file is
present) is not `"failed"`; in particular a worker status of `"failed"`
forces failure even when the return code is `0`. -/
theorem start_job_success_iff (rc : Int) (statusFile : Option String) :
    start_job_success rc statusFile = true ↔
      rc = 0 ∧ read_worker_status statusFile ≠ some "failed" := by
  simp [start_job_success]

/-- Claim C2 — the claim operation returns "not claimed" when the claim
link coexists with a `running/<id>` marker; with a claim link but no
running marker it unlinks the stale claim and retries once, succeeding
unless the retry raises; with no claim link the symlink succeeds and claims
the job. -/
theorem claim_job_protocol (jobId : String) (r₁ r₂ : Bool) :
    claim_job ⟨true, true, r₁⟩ jobId = none
      ∧ claim_job ⟨true, false, false⟩ jobId = some jobId
      ∧ claim_job ⟨true, false, true⟩ jobId = none
      ∧ claim_job ⟨false, r₁, r₂⟩ jobId = some jobId := by
  refine ⟨?_, rfl, rfl, ?_⟩ <;> simp [claim_job]

/-- Claim C9 — after `mark_persistent_trigger_handled` runs with the
trigger file at mtime `m`, `should_fire_persistent_trigger` returns `true`
exactly when the trigger file exists with an mtime strictly greater than
`m`, and `false` whenever the trigger file does not exist. -/
theorem persistent_trigger_cycle (m current : ℚ) (stored : Option ℚ) :
    should_fire_persistent_trigger (some current)
        (mark_persistent_trigger_handled (some m) stored) = decide (m < current)
      ∧ should_fire_persistent_trigger none
          (mark_persistent_trigger_handled (some m) stored) = false := by
  constructor <;>
    simp [should_fire_persistent_trigger, mark_persistent_trigger_handled, read_float]

/-- Claim C5 is false as stated: a log that matches the rate-limit family
does not stop the engine when the return code is `0`.  With `rc = 0` and a
log containing `429`, classic mode continues to the next iteration
(resetting the transient counter) and zip-chain mode classifies the
iteration as `in_progress` with no hard stop. -/
theorem rate_limit_counterexample :
    detectRateLimit "429" = true
      ∧ classic_step 0 "429" 0 4 "RALPH_COMPLETE" = .next 0
      ∧ classify_zip_iter 0 "429" 0 4 "RALPH_COMPLETE" 1 8 =
          ⟨"in_progress", "", false, 0⟩ := by
  refine ⟨by decide, by decide, by decide⟩

/-- Claim C5 (amended) — for every iteration with a nonzero return code
whose log matches the rate-limit regex family, classification yields status
`stopped_rate_limit` with stop reason `rate_limit_detected` and the engine
hard-stops, in both classic and zip-chain modes. -/
theorem rate_limit_hard_stop (rc : Int) (log : String) (cte maxTransient : Nat)
    (sig : String) (iteration maxIterations : Nat)
    (hrc : rc ≠ 0) (hlog : detectRateLimit log = true) :
    classic_step rc log cte maxTransient sig =
        .stop "stopped_rate_limit" "rate_limit_detected"
      ∧ classify_zip_iter rc log cte maxTransient sig iteration maxIterations =
          ⟨"stopped_rate_limit", "rate_limit_detected", true, cte⟩ := by
  constructor
  · simp [classic_step, hrc, hlog]
  · simp [classify_zip_iter, hrc, hlog]

/-- Witness for `rate_limit_hard_stop` at `rc = 1`, log `429 Too Many
Requests`. -/
theorem rate_limit_hard_stop_witness :
    (1 : Int) ≠ 0 ∧ detectRateLimit "429 Too Many Requests" = true
      ∧ (classic_step 1 "429 Too Many Requests" 0 4 "RALPH_COMPLETE" =
            .stop "stopped_rate_limit" "rate_limit_detected"
          ∧ classify_zip_iter 1 "429 Too Many Requests" 0 4 "RALPH_COMPLETE" 3 8 =
              ⟨"stopped_rate_limit", "rate_limit_detected", true, 0⟩) :=
  ⟨by decide, by decide,
    rate_limit_hard_stop 1 "429 Too Many Requests" 0 4 "RALPH_COMPLETE" 3 8
      (by decide) (by decide)⟩

/-- Auxiliary: the emitted checkpoint versions of a zip-chain run are
exactly the attempted iteration numbers shifted by the version offset, in
order. -/
theorem zipChainGo_emitted (env : Nat → IterOracle) (maxTransient : Nat)
    (sig : String) (maxIterations offset : Nat) :
    ∀ fuel iteration cte,
      (zipChainGo env maxTransient sig maxIterations offset fuel iteration cte).2
        = (zipChainGo env maxTransient sig maxIterations offset fuel iteration cte).1.map
            (fun n => offset + n) := by
  intro fuel
  induction fuel with
  | zero => intro iteration cte; simp [zipChainGo]
  | succ f ih =>
    intro iteration cte
    simp only [zipChainGo]
    split
    · simp
    · split
      · simp
      · set c := classify_zip_iter (env iteration).rc (env iteration).log cte
          maxTransient sig iteration maxIterations with hc
        by_cases h : c.hardStop <;> simp [h, ih]

/-- Claim C4 — in zip-chain mode, the checkpoint archive numbered
`version_offset + N` is emitted if and only if iteration `N` was attempted:
hard-stopped iterations (rate limit, context limit, transient-error cap,
assistant failure, complete signal, iteration cap) still emit their
checkpoint, and an iteration skipped by the soft budget guard emits
nothing. -/
theorem zip_chain_emission_iff (env : Nat → IterOracle) (maxTransient : Nat)
    (sig : String) (maxIterations offset : Nat) (N : Nat) :
    N ∈ (zipChainRun env maxTransient sig maxIterations offset).1 ↔
      offset + N ∈ (zipChainRun env maxTransient sig maxIterations offset).2 := by
  rw [zipChainRun, zipChainGo_emitted]
  constructor
  · exact fun h => List.mem_map_of_mem _ h
  · intro h
    rcases List.mem_map.1 h with ⟨m, hm, he⟩
    rwa [Nat.add_left_cancel he] at hm

/-- Auxiliary: a per-file sync step never lowers the cursor. -/
theorem syncFileStep_le (cur size : Nat) : cur ≤ (syncFileStep cur size).1 := by
  unfold syncFileStep
  split
  · exact Nat.le_refl _
  · omega

/-- Auxiliary: one sync tick never lowers any file's cursor. -/
theorem syncTick_mono (files : List (String × Nat)) :
    ∀ (cursors : String → Nat) (F : String), cursors F ≤ (syncTick cursors files).1 F := by
  induction files with
  | nil => intro cursors F; simp [syncTick]
  | cons hd tl ih =>
    intro cursors F
    obtain ⟨f, size⟩ := hd
    simp only [syncTick]
    refine Nat.le_trans ?_ (ih _ F)
    by_cases h : F = f <;> simp [h, syncFileStep_le]

/-- Auxiliary: a tick leaves untouched the cursor of a file absent from the
tick's file list. -/
theorem syncTick_not_mem (files : List (String × Nat)) :
    ∀ (cursors : String → Nat) (F : String), F ∉ files.map Prod.fst →
      (syncTick cursors files).1 F = cursors F := by
  induction files with
  | nil => intro cursors F _; simp [syncTick]
  | cons hd tl ih =>
    intro cursors F hF
    obtain ⟨f, size⟩ := hd
    simp only [List.map_cons, List.mem_cons] at hF
    push_neg at hF
    simp only [syncTick]
    rw [ih _ F hF.2]
    simp [hF.1]

/-- Auxiliary: for a file appearing (with a unique name) in the tick with
size `s`, the tick sets its cursor to `max cursor s` and appends exactly
`s - cursor` bytes from it when `cursor < s`, and nothing otherwise. -/
theorem syncTick_file_spec (files : List (String × Nat)) :
    ∀ (cursors : String → Nat) (F : String) (s : Nat),
      (files.map Prod.fst).Nodup → (F, s) ∈ files →
      (syncTick cursors files).1 F = max (cursors F) s
        ∧ (F, if cursors F < s then s - cursors F else 0) ∈ (syncTick cursors files).2 := by
  induction files with
  | nil => intro _ _ _ _ h; cases h
  | cons hd tl ih =>
    intro cursors F s hnd hmem
    obtain ⟨f, size⟩ := hd
    simp only [List.map_cons, List.nodup_cons] at hnd
    simp only [syncTick]
    rcases List.mem_cons.1 hmem with heq | hmem'
    · obtain ⟨hF, hs⟩ := Prod.mk.inj heq
      subst hF; subst hs
      constructor
      · rw [syncTick_not_mem tl _ F hnd.1]
        simp only [if_pos rfl]
        by_cases h : s ≤ cursors F
        · simp [syncFileStep, h]
        · simp [syncFileStep, h]
          omega
      · refine List.mem_cons.2 (Or.inl ?_)
        by_cases h : s ≤ cursors F
        · have hlt : ¬ cursors F < s := by omega
          simp [syncFileStep, h, hlt]
        · have hlt : cursors F < s := by omega
          simp [syncFileStep, h, hlt]
    · have hFf : F ≠ f := by
        intro h
        exact hnd.1 (h ▸ List.mem_map_of_mem Prod.fst hmem')
      have := ih (fun n => if n = f then (syncFileStep (cursors f) size).1 else cursors n)
        F s hnd.2 hmem'
      simp only [if_neg hFf] at this
      exact ⟨this.1, List.mem_cons.2 (Or.inr this.2)⟩

/-- Claim C6 — across successive sync ticks the per-file cursor never
decreases, and within one tick the bytes appended to the combined sink log
from a file `F` of size `s` are exactly `s` minus the previous cursor
(nothing when the size is at most the cursor); the cursor advances to the
file size. -/
theorem sync_cursor_spec :
    (∀ (cursors : String → Nat) (ticks : List (List (String × Nat))) (F : String),
        cursors F ≤ syncTicks cursors ticks F)
      ∧ ∀ (cursors : String → Nat) (files : List (String × Nat)) (F : String) (s : Nat),
          (files.map Prod.fst).Nodup → (F, s) ∈ files →
          (syncTick cursors files).1 F = max (cursors F) s
            ∧ (F, if cursors F < s then s - cursors F else 0)
                ∈ (syncTick cursors files).2 := by
  constructor
  · intro cursors ticks
    induction ticks generalizing cursors with
    | nil => intro F; simp [syncTicks]
    | cons t rest ih =>
      intro F
      exact Nat.le_trans (syncTick_mono t cursors F) (ih _ F)
  · exact fun cursors files F s hnd hmem => syncTick_file_spec files cursors F s hnd hmem

/-- Witness for `sync_cursor_spec` on one tick containing `iter-1.log` of
size `5` with a fresh cursor map. -/
theorem sync_cursor_spec_witness :
    (([("iter-1.log", 5)] : List (String × Nat)).map Prod.fst).Nodup
      ∧ ((syncTick (fun _ => 0) [("iter-1.log", 5)]).1 "iter-1.log" = max 0 5
          ∧ ("iter-1.log", if (0 : Nat) < 5 then 5 - 0 else 0)
              ∈ (syncTick (fun _ => 0) [("iter-1.log", 5)]).2) :=
  ⟨by simp, sync_cursor_spec.2 (fun _ => 0) [("iter-1.log", 5)] "iter-1.log" 5
    (by simp) (by simp)⟩

/-- Auxiliary: a fold step with an unparsable candidate keeps the best. -/
theorem flvzStep_none (jobId : String) (b : Option String × Int) (name : String)
    (hv : versionOfName jobId name = none) : flvzStep jobId b name = b := by
  simp [flvzStep, hv]

/-- Auxiliary: a fold step with a strictly better candidate replaces the best. -/
theorem flvzStep_gt (jobId : String) (b : Option String × Int) (name : String)
    (n : Int) (hv : versionOfName jobId name = some n) (hgt : n > b.2) :
    flvzStep jobId b name = (some name, n) := by
  simp [flvzStep, hv, hgt]

/-- Auxiliary: a fold step with a candidate not exceeding the best keeps it. -/
theorem flvzStep_le (jobId : String) (b : Option String × Int) (name : String)
    (n : Int) (hv : versionOfName jobId name = some n) (hgt : ¬ n > b.2) :
    flvzStep jobId b name = b := by
  simp [flvzStep, hv, hgt]

/-- Auxiliary: the `find_latest_version_zip` fold preserves `FlvzInv`,
never lowers the best number, and ends at least as high as every parsed
candidate it processed. -/
theorem flvz_fold_spec (jobId : String) (names₀ : List String) :
    ∀ (l : List String) (b : Option String × Int), l ⊆ names₀ →
      FlvzInv names₀ jobId b →
      FlvzInv names₀ jobId (l.foldl (flvzStep jobId) b)
        ∧ b.2 ≤ (l.foldl (flvzStep jobId) b).2
        ∧ ∀ name ∈ l, ∀ n : Int, versionOfName jobId name = some n →
            n ≤ (l.foldl (flvzStep jobId) b).2 := by
  intro l
  induction l with
  | nil =>
    intro b _ hb
    exact ⟨hb, le_refl _, fun name h => absurd h (List.not_mem_nil name)⟩
  | cons name tl ih =>
    intro b hsub hb
    have hname : name ∈ names₀ := hsub (List.mem_cons_self name tl)
    have hsub' : tl ⊆ names₀ := fun x hx => hsub (List.mem_cons_of_mem name hx)
    have hstep : FlvzInv names₀ jobId (flvzStep jobId b name)
        ∧ b.2 ≤ (flvzStep jobId b name).2
        ∧ ∀ n : Int, versionOfName jobId name = some n →
            n ≤ (flvzStep jobId b name).2 := by
      cases hv : versionOfName jobId name with
      | none =>
        rw [flvzStep_none jobId b name hv]
        exact ⟨hb, le_refl _, fun n hn => Option.noConfusion hn⟩
      | some n =>
        by_cases hgt : n > b.2
        · rw [flvzStep_gt jobId b name n hv hgt]
          have h0 : (0 : Int) ≤ b.2 := hb.1
          refine ⟨⟨by omega, by simp, ?_⟩, by simpa using le_of_lt hgt, ?_⟩
          · intro p hp
            simp only at hp
            obtain rfl : name = p := Option.some.inj hp
            exact ⟨hname, hv, by omega⟩
          · intro m hm
            obtain rfl := Option.some.inj hm
            simp
        · rw [flvzStep_le jobId b name n hv hgt]
          refine ⟨hb, le_refl _, fun m hm => ?_⟩
          obtain rfl := Option.some.inj hm
          omega
    rw [List.foldl_cons]
    obtain ⟨h1, h2, h3⟩ := ih (flvzStep jobId b name) hsub' hstep.1
    refine ⟨h1, le_trans hstep.2.1 h2, ?_⟩
    intro x hx n hn
    rcases List.mem_cons.1 hx with heq | hmem
    · subst heq
      exact le_trans (hstep.2.2 n hn) h2
    · exact h3 x hmem n hn

/-- Claim C7 is false as stated at numbers below `1`: `<id>_v0.zip` is a
file matching `<id>_v<N>.zip` whose suffix parses to the integer `0`, yet
the search returns no path (rather than that archive with its largest
`N = 0`), because a candidate must strictly exceed the initial best of
`0`. -/
theorem resume_search_counterexample :
    versionOfName "job" "job_v0.zip" = some 0
      ∧ find_latest_version_zip ["job_v0.zip"] "job" = (none, 0) := by
  refine ⟨by decide, by decide⟩

/-- Claim C7 (amended) — the resume search over files matching
`<id>_v<N>.zip` returns the archive with the largest integer `N` together
with that `N` whenever some matching file parses to an `N ≥ 1` (candidates
are accepted only when they strictly exceed the running best, which starts
at `0`, so files parsing to `N ≤ 0` are never selected); files whose suffix
does not parse as an integer are ignored; when no matching file parses to
an `N ≥ 1` it returns no path and offset `0`. -/
theorem resume_search_spec (names : List String) (jobId : String) :
    ((find_latest_version_zip names jobId).1 = none →
        (find_latest_version_zip names jobId).2 = 0
          ∧ ∀ name ∈ names, ∀ n : Int, versionOfName jobId name = some n → n ≤ 0)
      ∧ ∀ p, (find_latest_version_zip names jobId).1 = some p →
          p ∈ names
            ∧ versionOfName jobId p = some (find_latest_version_zip names jobId).2
            ∧ 1 ≤ (find_latest_version_zip names jobId).2
            ∧ ∀ name ∈ names, ∀ n : Int, versionOfName jobId name = some n →
                n ≤ (find_latest_version_zip names jobId).2 := by
  have hdef : find_latest_version_zip names jobId
      = names.foldl (flvzStep jobId) ((none : Option String), (0 : Int)) := rfl
  have hinit : FlvzInv names jobId ((none : Option String), (0 : Int)) := by
    refine ⟨le_refl _, fun _ => rfl, fun p hp => ?_⟩
    cases hp
  obtain ⟨hinv, _, hub⟩ :=
    flvz_fold_spec jobId names names ((none : Option String), (0 : Int))
      (fun x hx => hx) hinit
  rw [hdef]
  constructor
  · intro hnone
    refine ⟨hinv.2.1 hnone, fun name hname n hn => ?_⟩
    have := hub name hname n hn
    rw [hinv.2.1 hnone] at this
    exact this
  · intro p hp
    obtain ⟨hmem, hver, hge⟩ := hinv.2.2 p hp
    exact ⟨hmem, hver, hge, hub⟩

/-- Witness for `resume_search_spec` on a sink holding `job_v3.zip` and
`job_v7.zip`: the search returns `job_v7.zip` with offset `7`. -/
theorem resume_search_spec_witness :
    (find_latest_version_zip ["job_v3.zip", "job_v7.zip"] "job").1 = some "job_v7.zip"
      ∧ ("job_v7.zip" ∈ ["job_v3.zip", "job_v7.zip"]
          ∧ versionOfName "job" "job_v7.zip"
              = some (find_latest_version_zip ["job_v3.zip", "job_v7.zip"] "job").2
          ∧ 1 ≤ (find_latest_version_zip ["job_v3.zip", "job_v7.zip"] "job").2
          ∧ ∀ name ∈ ["job_v3.zip", "job_v7.zip"], ∀ n : Int,
              versionOfName "job" name = some n →
                n ≤ (find_latest_version_zip ["job_v3.zip", "job_v7.zip"] "job").2) :=
  ⟨by decide,
    (resume_search_spec ["job_v3.zip", "job_v7.zip"] "job").2 "job_v7.zip" (by decide)⟩

/-- Claim C10 — when every matching versioned archive for the job id parses
to `N = 0` (for example a lone `<id>_v0.zip`), the resume search returns no
path and offset `0`: a candidate is accepted only when its `N` strictly
exceeds the initial best of `0`. -/
theorem resume_search_ignores_v0 (names : List String) (jobId : String)
    (h : ∀ name ∈ names, ∀ n : Int, versionOfName jobId name = some n → n = 0) :
    find_latest_version_zip names jobId = (none, 0) := by
  have hdef : find_latest_version_zip names jobId
      = names.foldl (flvzStep jobId) ((none : Option String), (0 : Int)) := rfl
  have hinit : FlvzInv names jobId ((none : Option String), (0 : Int)) := by
    refine ⟨le_refl _, fun _ => rfl, fun p hp => ?_⟩
    cases hp
  obtain ⟨hinv, _, _⟩ :=
    flvz_fold_spec jobId names names ((none : Option String), (0 : Int))
      (fun x hx => hx) hinit
  rw [hdef]
  cases hres : (names.foldl (flvzStep jobId) ((none : Option String), (0 : Int))).1 with
  | none =>
    have h2 := hinv.2.1 hres
    exact Prod.ext hres h2
  | some p =>
    obtain ⟨hmem, hver, hge⟩ := hinv.2.2 p hres
    have := h p hmem _ hver
    omega

/-- Witness for `resume_search_ignores_v0` on a sink holding exactly
`job_v0.zip`. -/
theorem resume_search_ignores_v0_witness :
    find_latest_version_zip ["job_v0.zip"] "job" = (none, 0) :=
  resume_search_ignores_v0 ["job_v0.zip"] "job" (by
    intro name hname n hv
    simp only [List.mem_singleton] at hname
    subst hname
    have h0 : versionOfName "job" "job_v0.zip" = some 0 := by decide
    rw [h0] at hv
    exact (Option.some.inj hv).symm)

/-- Claim C3 is false as stated: the strict single-zip branch of `main`
dispatches `start_job` without consulting `done/<id>` or `failed/<id>`, so
after a successful run the next poll tick re-runs the job and touches
`running/<id>` while `done/<id>` still exists — a reachable instant where
the job id is present in two of `{running, done, failed}`. -/
theorem marker_invariant_counterexample :
    InstantStrict ⟨true, true, false⟩
      ∧ atMostOneMarker ⟨true, true, false⟩ = false := by
  constructor
  · right
    refine ⟨⟨false, true, false⟩, true, .success, ?_, ?_⟩
    · exact RestStrict.step ⟨false, false, false⟩ true .success RestStrict.init
    · decide
  · decide

/-- Auxiliary: every between-jobs marker state of the non-strict branch has
at most one marker set. -/
theorem restLoop_atMostOne : ∀ s, RestLoop s → atMostOneMarker s = true := by
  intro s h
  induction h with
  | init => decide
  | clean s kf _ ih =>
    revert ih
    rcases s with ⟨r, d, f⟩
    cases r <;> cases d <;> cases f <;> cases kf <;> decide
  | step s kf o _ hd hf ih =>
    rcases s with ⟨r, d, f⟩
    simp only at hd hf
    subst hd; subst hf
    cases o <;> cases kf <;> cases r <;> decide

/-- Claim C3 (amended) — in the non-strict dispatch path, where a job with
a `done/<id>` or `failed/<id>` marker is skipped before claiming, every
reachable instant has the job id present in at most one of
`{running/<id>, done/<id>, failed/<id>}` (a claim link may coexist with the
running marker); the strict single-zip branch does not perform that check
and can re-run a finished job, making `running/<id>` coexist with its
terminal marker. -/
theorem marker_invariant_loop (t : Markers) (h : InstantLoop t) :
    atMostOneMarker t = true := by
  rcases h with hrest | ⟨s, kf, o, hs, hd, hf, hmem⟩
  · exact restLoop_atMostOne t hrest
  · rcases s with ⟨r, d, f⟩
    simp only at hd hf
    subst hd; subst hf
    revert hmem
    rcases t with ⟨a, b, c⟩
    cases o <;> cases kf <;> cases r <;> cases a <;> cases b <;> cases c <;> decide

/-- Witness for `marker_invariant_loop`: the instant just after
`running/<id>` is touched in a dispatched job. -/
theorem marker_invariant_loop_witness : atMostOneMarker ⟨true, false, false⟩ = true :=
  marker_invariant_loop ⟨true, false, false⟩
    (Or.inr ⟨⟨false, false, false⟩, true, .success, RestLoop.init, rfl, rfl, by decide⟩)

/-- Claim C8 is false as stated: `start_job` touches `running/<id>`
(line 491) before copying the input archive (line 496), so the very first
marker step leaves the running marker present while staging is pending, and
the staging copy is a plain `shutil.copy2`, not a `.tmp`-sibling-and-rename
copy. -/
theorem staging_order_counterexample :
    (stageTrace true .success).head? = some ⟨true, false⟩
      ∧ stage_input_method ≠ CopyMethod.tmpThenRename := by
  refine ⟨by decide, by decide⟩

/-- Claim C8 (amended) — in every supervisor run the `running/<id>` marker
is created strictly before the input archive is staged into
`work_dir/<id>/input/input.zip`, the staging copy is a plain `shutil.copy2`
(no `.tmp` sibling; the tmp-and-rename discipline belongs to the sink-copy
helper `atomic_copy`), the marker is removed when the copy fails, and when
the copy succeeds staging is complete before the container step. -/
theorem staging_order_spec (kf : Bool) (o : JobOutcome) :
    (stageTrace kf o).head? = some ⟨true, false⟩
      ∧ stage_input_method = CopyMethod.plainCopy
      ∧ sink_copy_method = CopyMethod.tmpThenRename
      ∧ (stageTrace kf .copyFail).getLast? = some ⟨false, false⟩
      ∧ (o ≠ .copyFail → (stageTrace kf o).getLast? = some ⟨false, true⟩) := by
  cases o <;> cases kf <;>
    refine ⟨by decide, rfl, rfl, by decide, fun h => ?_⟩ <;>
    first
      | exact absurd rfl h
      | decide

/-- Witness for `staging_order_spec` at a successful run with
`keep_failed_marker` on. -/
theorem staging_order_spec_witness :
    (stageTrace true .success).getLast? = some ⟨false, true⟩ :=
  (staging_order_spec true .success).2.2.2.2 (by decide)

end NightWorker
